import Mathlib

/-!
Verification of the PianoKeys core: a shallow embedding of the MIDI event
parser (src/music_logic.py), the scroll projector and hit-effect scheduler
(src/piano_roll.py), and the load control surface (src/main.py), together
with theorems settling the claims of the specification about them.

Conventions: Python ints and MIDI ticks are modelled as `Int` (velocities,
which are MIDI data bytes 0..127, as `Nat`); Python floats are modelled as
`ℚ`; a Python function that returns `None` on failure is modelled as
returning `Option`.
-/

namespace PianoKeys

/-- A musical note, from `music_logic.Note`: pitch, start time in ticks and
duration in ticks. -/
structure Note where
  note : Int
  start_time : Int
  duration : Int
deriving DecidableEq

/-- One mido message as consumed by `parse_midi_file`: note-on and note-off
carry a pitch, a velocity and a delta time; a tempo meta event carries the
tempo; every other message only contributes its delta time. -/
inductive MidiMsg where
  | noteOn (note : Int) (velocity : Nat) (time : Int)
  | noteOff (note : Int) (velocity : Nat) (time : Int)
  | setTempo (tempo : Int) (time : Int)
  | other (time : Int)
deriving DecidableEq

/-- The delta time (`msg.time`) of a message. -/
def MidiMsg.deltaTime : MidiMsg → Int
  | .noteOn _ _ t => t
  | .noteOff _ _ t => t
  | .setTempo _ t => t
  | .other t => t

/-- A MIDI track is a list of messages (mido `MidiTrack`). -/
abbrev Track := List MidiMsg

/-- A successfully opened MIDI file: its ticks-per-beat header value and its
tracks (mido `MidiFile`). -/
structure MidiFile where
  ticks_per_beat : Int
  tracks : List Track
deriving DecidableEq

/-- Whether a message is a note-on with nonzero velocity, the predicate
counted by the track-selection heuristic (music_logic.py:71). -/
def isNoteOnPos : MidiMsg → Bool
  | .noteOn _ v _ => decide (0 < v)
  | _ => false

/-- Definition of `note_on_count`: the number of note-on messages with nonzero velocity in a
track (music_logic.py:71). -/
def note_on_count (tr : Track) : Nat := (tr.filter isNoteOnPos).length

/-- The track-selection loop of music_logic.py:67-75: scan tracks in order,
keeping the index of the strictly best count so far (so ties keep the
earliest index); `best` starts at -1, `mx` starts at -1. -/
def bestAux : List Track → Nat → Int → Int → Int
  | [], _, best, _ => best
  | tr :: rest, i, best, mx =>
    if (note_on_count tr : Int) > mx then bestAux rest (i + 1) (i : Int) (note_on_count tr)
    else bestAux rest (i + 1) best mx

/-- Definition of `best_track_index` as computed by music_logic.py:67-75. -/
def best_track_index (tracks : List Track) : Int := bestAux tracks 0 (-1) (-1)

/-- First `set_tempo` message of a single track, if any. -/
def trackFirstTempo : Track → Option Int
  | [] => none
  | .setTempo t _ :: _ => some t
  | _ :: rest => trackFirstTempo rest

/-- The tempo scan of music_logic.py:49-58: the first `set_tempo` found
scanning the tracks in order, defaulting to 500000 microseconds per beat. -/
def firstTempo (tracks : List Track) : Int :=
  match tracks.findSome? trackFirstTempo with
  | some t => t
  | none => 500000

/-- The mutable state of the event walk of music_logic.py:84-94: the running
absolute tick clock, the pending note-on start per pitch (`active_notes`,
a dict), and the emitted notes so far (`notes_list`). -/
structure WalkState where
  current_time_ticks : Int
  active_notes : Int → Option Int
  notes_list : List Note

/-- The initial walk state: clock 0, empty pending dict, no notes. -/
def initialWalkState : WalkState := ⟨0, fun _ => none, []⟩

/-- The note-off branch of the walk (music_logic.py:89-94), also taken for a
zero-velocity note-on: if a pending start exists for the pitch, pop it and
emit a note exactly when the duration is positive. -/
def processOff (clock : Int) (active : Int → Option Int) (acc : List Note) (p : Int) :
    WalkState :=
  match active p with
  | some start_time =>
    let duration := clock - start_time
    ⟨clock, fun q => if q = p then none else active q,
      if 0 < duration then acc ++ [⟨p, start_time, duration⟩] else acc⟩
  | none => ⟨clock, active, acc⟩

/-- One iteration of the event walk of music_logic.py:84-94: accumulate the
delta time, then dispatch on the message kind. -/
def stepMsg (s : WalkState) (m : MidiMsg) : WalkState :=
  let clock := s.current_time_ticks + m.deltaTime
  match m with
  | .noteOn p v _ =>
    if 0 < v then
      ⟨clock, fun q => if q = p then some clock else s.active_notes q, s.notes_list⟩
    else processOff clock s.active_notes s.notes_list p
  | .noteOff p _ _ => processOff clock s.active_notes s.notes_list p
  | .setTempo _ _ => ⟨clock, s.active_notes, s.notes_list⟩
  | .other _ => ⟨clock, s.active_notes, s.notes_list⟩

/-- The full event walk over the selected track. -/
def walkTrack (tr : Track) : WalkState := tr.foldl stepMsg initialWalkState

/-- Whether a message would close a pending note for pitch `p`: a note-off
for `p`, or a note-on for `p` with velocity zero (music_logic.py:89). -/
def isOffFor (p : Int) : MidiMsg → Bool
  | .noteOff q _ _ => decide (q = p)
  | .noteOn q v _ => decide (q = p) && decide (v = 0)
  | _ => false

/-- The final sort of music_logic.py:102: emitted notes ordered by start
time (the Python sort, which is stable). -/
def sortNotes (l : List Note) : List Note :=
  l.mergeSort (fun a b => a.start_time ≤ b.start_time)

/-- The input handed to `parse_midi_file`: the file is missing, the byte
stream fails to parse, or mido yields a `MidiFile` value. -/
inductive LoadInput where
  | missing
  | malformed
  | ok (file : MidiFile)

/-- The dictionary returned by a successful `parse_midi_file`
(music_logic.py:114-118). -/
structure ParsedSong where
  notes : List Note
  ticks_per_beat : Int
  tempo : Int
deriving DecidableEq

/-- Embedding of `parse_midi_file` (music_logic.py:22-118): every failure path — missing
file, malformed stream, zero tracks, no selectable track, zero emitted
notes — returns `None`; success returns the sorted notes with the ticks-per-beat of the file and the first tempo found. -/
def parse_midi_file : LoadInput → Option ParsedSong
  | .missing => none
  | .malformed => none
  | .ok file =>
    if file.tracks.isEmpty then none
    else
      let tempo := firstTempo file.tracks
      let idx := best_track_index file.tracks
      if idx = -1 then none
      else
        let tr := file.tracks.getD idx.toNat []
        let ns := (walkTrack tr).notes_list
        if ns.isEmpty then none
        else some ⟨sortNotes ns, file.ticks_per_beat, tempo⟩

/-- One entry of the key_rects_map inside keyboard_layout_info: the on-screen x
position and width of a key (only the fields the piano roll reads). -/
structure KeyInfo where
  x_on_keyboard : ℚ
  w_on_keyboard : ℚ
deriving DecidableEq

/-- One hit effect, from `PianoRoll.trigger_hit_effect`: all four stored
values are Python ints. -/
structure HitEffect where
  note_midi : Int
  alpha : Int
  size : Int
  max_size : Int
deriving DecidableEq

/-- A pygame-style rectangle: x, y of the top-left corner, width, height. -/
structure Rect where
  x : ℚ
  y : ℚ
  w : ℚ
  h : ℚ
deriving DecidableEq

/-- One element of `visible_note_representations` (the constant color field
is omitted). -/
structure VisibleNote where
  rect : Rect
  note_obj : Note
deriving DecidableEq

/-- The constant `SCROLL_SPEED_PIXELS_PER_SECOND` (piano_roll.py:10). -/
def SCROLL_SPEED_PIXELS_PER_SECOND : ℚ := 120

/-- Python `int()` applied to a rational: truncation toward zero. -/
def pyInt (q : ℚ) : Int := if q < 0 then ⌈q⌉ else ⌊q⌋

/-- The state of a `PianoRoll` object (piano_roll.py:12-30). The keyboard
layout is modelled as the lookup function `key_rects_map.get`. -/
structure PianoRoll where
  x : ℚ
  y : ℚ
  width : ℚ
  height : ℚ
  keyboard_layout_info : Int → Option KeyInfo
  notes : List Note
  visible_note_representations : List VisibleNote
  hit_effects : List HitEffect
  hit_line_y : ℚ
  ticks_per_beat : Int
  tempo_micros_per_beat : Int
  seconds_per_tick : ℚ

/-- The constructor (piano_roll.py:13-30): nonpositive ticks-per-beat
falls back to 480, nonpositive tempo to 500000; the hit line sits at
85% of the height; `seconds_per_tick = tempo / (1000000.0 * ticks_per_beat)`. -/
def PianoRoll.init (x y width height : ℚ) (layout : Int → Option KeyInfo)
    (notes : List Note) (ticks_per_beat tempo : Int) : PianoRoll :=
  let tpb := if ticks_per_beat > 0 then ticks_per_beat else 480
  let tmp := if tempo > 0 then tempo else 500000
  { x := x, y := y, width := width, height := height,
    keyboard_layout_info := layout,
    notes := notes,
    visible_note_representations := [],
    hit_effects := [],
    hit_line_y := y + height * ((85 : ℚ) / 100),
    ticks_per_beat := tpb,
    tempo_micros_per_beat := tmp,
    seconds_per_tick := (tmp : ℚ) / (1000000 * (tpb : ℚ)) }

/-- Tick-to-second conversion as performed at piano_roll.py:42-43:
`tick * seconds_per_tick`. -/
def PianoRoll.tick_to_seconds (pr : PianoRoll) (t : ℚ) : ℚ := t * pr.seconds_per_tick

/-- The per-note body of the projection loop in `PianoRoll.update`
(piano_roll.py:40-69): `none` when the note is culled (piano_roll.py:54) or
its pitch is absent from the layout (piano_roll.py:57-58), otherwise the
rendered rectangle, whose top is `note_screen_y - note_screen_height` and
whose height is at least 1. -/
def projectNote (pr : PianoRoll) (current_time_seconds : ℚ) (n : Note) :
    Option VisibleNote :=
  let note_start_seconds := pr.tick_to_seconds n.start_time
  let note_duration_seconds := pr.tick_to_seconds n.duration
  let y_offset_pixels :=
    (note_start_seconds - current_time_seconds) * SCROLL_SPEED_PIXELS_PER_SECOND
  let note_screen_y := pr.hit_line_y - y_offset_pixels
  let note_screen_height := note_duration_seconds * SCROLL_SPEED_PIXELS_PER_SECOND
  if note_screen_y + note_screen_height < pr.y ∨ note_screen_y > pr.y + pr.height then
    none
  else
    match pr.keyboard_layout_info n.note with
    | some key_info =>
      some ⟨⟨key_info.x_on_keyboard, note_screen_y - note_screen_height,
             key_info.w_on_keyboard, max 1 note_screen_height⟩, n⟩
    | none => none

/-- One `update` step of a single hit effect (piano_roll.py:74-75): alpha
drops by 10, size grows by 3. -/
def updateEffect (e : HitEffect) : HitEffect :=
  { e with alpha := e.alpha - 10, size := e.size + 3 }

/-- The retention test of piano_roll.py:76, applied after the mutation: the
effect survives when `alpha > 0 and size < max_size`. -/
def keepEffect (e : HitEffect) : Bool :=
  decide (0 < e.alpha) && decide (e.size < e.max_size)

/-- The hit-effect part of `PianoRoll.update` (piano_roll.py:71-78). -/
def effectsStep (l : List HitEffect) : List HitEffect :=
  (l.map updateEffect).filter keepEffect

/-- The method `update` (piano_roll.py:38-78): rebuild the visible note list
for the playhead time and age the hit effects. -/
def PianoRoll.update (pr : PianoRoll) (current_time_seconds : ℚ) : PianoRoll :=
  { pr with
    visible_note_representations := pr.notes.filterMap (projectNote pr current_time_seconds),
    hit_effects := effectsStep pr.hit_effects }

/-- The method `trigger_hit_effect` (piano_roll.py:120-130): a no-op when the
pitch has no layout entry; otherwise append one effect with alpha 255, size
`int(width * 0.8)` and max size three times that. -/
def PianoRoll.trigger_hit_effect (pr : PianoRoll) (midi_note : Int) : PianoRoll :=
  match pr.keyboard_layout_info midi_note with
  | some key_info =>
    let initial_size := pyInt (key_info.w_on_keyboard * ((8 : ℚ) / 10))
    { pr with hit_effects := pr.hit_effects ++ [⟨midi_note, 255, initial_size, initial_size * 3⟩] }
  | none => pr

/-- The methods defined on the `PianoRoll` class in src/piano_roll.py, in
source order. -/
def pianoRollMethodNames : List String :=
  ["__init__", "_get_key_rect_for_note", "update", "draw", "trigger_hit_effect"]

/-- The method name that the load path of `main` invokes on the piano roll
object (main.py:431). -/
def mainLoadCalledMethod : String := "set_song"

/-- A one-key layout: pitch 60 maps to a key at x = 10 of width 5; every
other pitch is absent. -/
def demoLayout : Int → Option KeyInfo :=
  fun n => if n = 60 then some ⟨10, 5⟩ else none

/-- A piano roll over viewport (0, 0, 200, 100) with the default time base
(480 ticks per beat, 500000 µs per beat, so 1/960 s per tick) holding one
note: pitch 60, start tick 0, duration 80 ticks. -/
def prC1 : PianoRoll := PianoRoll.init 0 0 200 100 demoLayout [⟨60, 0, 80⟩] 480 500000

/-- A one-key layout whose key width is 21, so that 0.8 × width = 16.8 is
not an integer. -/
def layoutC8 : Int → Option KeyInfo :=
  fun n => if n = 60 then some ⟨0, 21⟩ else none

/-- A piano roll over the C8 layout with no notes. -/
def prC8 : PianoRoll := PianoRoll.init 0 0 200 100 layoutC8 [] 480 500000

/-- Two single-message tracks, with one qualifying note-on each. -/
def tracksW : List Track := [[.noteOn 60 64 0], [.noteOn 62 64 0]]

/-- A track whose note-on for pitch 60 is never matched, while pitch 62 is
opened and closed. -/
def trackW9 : Track := [.noteOn 60 64 0, .noteOn 62 64 0, .noteOff 62 64 5]

/-- A one-track file whose only note-on is never matched, so no note is
emitted. -/
def fileNoNotes : MidiFile := ⟨480, [[.noteOn 60 64 0]]⟩

/-- A walk state with a pending start at tick 0 for pitch 60. -/
def stateW4 : WalkState := ⟨0, fun q => if q = 60 then some 0 else none, []⟩

/-- C2: the load path of `main` (main.py:431) invokes the method named by
`mainLoadCalledMethod` on the piano roll object, but the `PianoRoll` class
defines no method of that name, so a successful download-and-parse raises
`AttributeError` instead of replacing the song session. -/
theorem load_invokes_undefined_method :
    pianoRollMethodNames.contains mainLoadCalledMethod = false := by decide

/-- C10: for every caller-supplied arguments, the constructed piano roll
replaces a nonpositive ticks-per-beat by 480 and a nonpositive tempo by
500000, derives `seconds_per_tick = tempo / (1000000 × ticks_per_beat)`
from the substituted values, and that derived constant is strictly
positive, so the division is never by zero. -/
theorem init_seconds_per_tick_pos (x y w h : ℚ) (kb : Int → Option KeyInfo)
    (ns : List Note) (tpb tempo : Int) :
    (PianoRoll.init x y w h kb ns tpb tempo).ticks_per_beat
        = (if tpb > 0 then tpb else 480) ∧
    (PianoRoll.init x y w h kb ns tpb tempo).tempo_micros_per_beat
        = (if tempo > 0 then tempo else 500000) ∧
    (PianoRoll.init x y w h kb ns tpb tempo).seconds_per_tick
        = ((PianoRoll.init x y w h kb ns tpb tempo).tempo_micros_per_beat : ℚ)
          / (1000000 * ((PianoRoll.init x y w h kb ns tpb tempo).ticks_per_beat : ℚ)) ∧
    0 < (PianoRoll.init x y w h kb ns tpb tempo).seconds_per_tick := by
  have h1 : (0 : Int) < (if tpb > 0 then tpb else 480) := by split <;> omega
  have h2 : (0 : Int) < (if tempo > 0 then tempo else 500000) := by split <;> omega
  refine ⟨rfl, rfl, rfl, ?_⟩
  simp only [PianoRoll.init]
  apply div_pos
  · exact_mod_cast h2
  · have hc : (0 : ℚ) < ((if tpb > 0 then tpb else 480 : Int) : ℚ) := by exact_mod_cast h1
    have : (0 : ℚ) < 1000000 := by norm_num
    exact mul_pos this hc

/-- C6: with positive construction arguments, tick-to-second conversion is
exactly `t × (tempo / (1000000 × ticks_per_beat))`, and it is additive:
`tick_to_seconds (a + b) = tick_to_seconds a + tick_to_seconds b`. -/
theorem tick_to_seconds_linear (x y w h : ℚ) (kb : Int → Option KeyInfo)
    (ns : List Note) (tpb tempo : Int) (h1 : tpb > 0) (h2 : tempo > 0) :
    (∀ t : ℚ, (PianoRoll.init x y w h kb ns tpb tempo).tick_to_seconds t
        = t * ((tempo : ℚ) / (1000000 * (tpb : ℚ)))) ∧
    (∀ a b : ℚ, (PianoRoll.init x y w h kb ns tpb tempo).tick_to_seconds (a + b)
        = (PianoRoll.init x y w h kb ns tpb tempo).tick_to_seconds a
          + (PianoRoll.init x y w h kb ns tpb tempo).tick_to_seconds b) := by
  have hs : (PianoRoll.init x y w h kb ns tpb tempo).seconds_per_tick
      = (tempo : ℚ) / (1000000 * (tpb : ℚ)) := by
    simp only [PianoRoll.init]
    rw [if_pos h1, if_pos h2]
  constructor
  · intro t
    rw [PianoRoll.tick_to_seconds, hs]
  · intro a b
    simp only [PianoRoll.tick_to_seconds]
    ring

/-- Witness for C6 at the default time base: additivity evaluated at the
concrete ticks 2 and 3. -/
theorem tick_to_seconds_linear_witness :
    (PianoRoll.init 0 0 200 100 demoLayout [] 480 500000).tick_to_seconds (2 + 3)
      = (PianoRoll.init 0 0 200 100 demoLayout [] 480 500000).tick_to_seconds 2
        + (PianoRoll.init 0 0 200 100 demoLayout [] 480 500000).tick_to_seconds 3 :=
  (tick_to_seconds_linear 0 0 200 100 demoLayout [] 480 500000 (by norm_num)
    (by norm_num)).2 2 3

/-- C1: the cull test of `PianoRoll.update` (piano_roll.py:54) applies the
outside-viewport test to `note_screen_y`, the bottom edge of the rendered
rectangle (piano_roll.py:65), as if it were the top. Concretely, for `prC1`
at playhead 1/6 s the top edge of the note `top_y = hit_line_y -
vertical_offset - note_height` is 95 and its height is 10, so its rectangle
[95, 105] intersects the viewport [0, 100] and the claimed cull condition
`top_y + height < viewport.y ∨ top_y > viewport.y + viewport.height` is
false — yet `update` excludes the note from the output of the frame. -/
theorem cull_drops_partially_visible_note :
    (prC1.update ((1 : ℚ) / 6)).visible_note_representations = [] ∧
    prC1.hit_line_y - (prC1.tick_to_seconds 0 - 1 / 6) * SCROLL_SPEED_PIXELS_PER_SECOND
      - prC1.tick_to_seconds 80 * SCROLL_SPEED_PIXELS_PER_SECOND = 95 ∧
    prC1.tick_to_seconds 80 * SCROLL_SPEED_PIXELS_PER_SECOND = 10 ∧
    ¬(((95 : ℚ) + 10 < prC1.y) ∨ ((95 : ℚ) > prC1.y + prC1.height)) := by
  refine ⟨?_, ?_, ?_, ?_⟩ <;>
    norm_num [PianoRoll.update, prC1, PianoRoll.init, demoLayout, projectNote,
      PianoRoll.tick_to_seconds, SCROLL_SPEED_PIXELS_PER_SECOND, List.filterMap]

/-- Counterexample to C3 as stated: the failure results of a missing file,
a malformed stream and a zero-track file are one and the same value `none`,
so the load operation does not distinguish the three error kinds. -/
theorem load_failures_indistinguishable :
    parse_midi_file .missing = parse_midi_file (.ok ⟨480, []⟩) ∧
    parse_midi_file .missing = parse_midi_file .malformed ∧
    parse_midi_file .missing = none := ⟨rfl, rfl, rfl⟩

/-- C3 (amended): every failure of the load operation — missing file,
malformed byte stream, zero tracks, or zero emitted notes from the
selected track — is returned to the caller as the single untagged failure
value `none`; no failure is thrown. -/
theorem parse_failures_all_none :
    parse_midi_file .missing = none ∧
    parse_midi_file .malformed = none ∧
    (∀ f : MidiFile, f.tracks = [] → parse_midi_file (.ok f) = none) ∧
    (∀ f : MidiFile,
      (walkTrack (f.tracks.getD (best_track_index f.tracks).toNat [])).notes_list = [] →
      parse_midi_file (.ok f) = none) := by
  refine ⟨rfl, rfl, ?_, ?_⟩
  · intro f hf
    simp [parse_midi_file, hf]
  · intro f hf
    by_cases he : f.tracks.isEmpty
    · simp [parse_midi_file, he]
    · by_cases hi : best_track_index f.tracks = -1
      · simp [parse_midi_file, he, hi]
      · simp only [List.getD, List.get?_eq_getElem?] at hf
        simp [parse_midi_file, he, hi, hf]

/-- Witness for C3 (amended): the zero-track file and the
one-dangling-note-on file both load to `none`. -/
theorem parse_failures_all_none_witness :
    parse_midi_file (.ok ⟨480, []⟩) = none ∧
    parse_midi_file (.ok fileNoNotes) = none :=
  ⟨parse_failures_all_none.2.2.1 ⟨480, []⟩ rfl,
   parse_failures_all_none.2.2.2 fileNoNotes (by decide)⟩

/-- Counterexample to C8 as stated: on a key of width 21 the created
size of the created effect is the Python-int truncation 16, strictly below the claimed
0.8 × 21 = 16.8. -/
theorem trigger_size_truncated :
    (prC8.trigger_hit_effect 60).hit_effects = [⟨60, 255, 16, 48⟩] ∧
    pyInt ((21 : ℚ) * (8 / 10)) = 16 ∧
    (16 : ℚ) < (8 / 10) * 21 := by
  refine ⟨?_, ?_, ?_⟩ <;>
    norm_num [prC8, PianoRoll.init, PianoRoll.trigger_hit_effect, layoutC8, pyInt]

/-- C8 (amended): `trigger_hit_effect` is a no-op for a pitch absent from
the layout; for a present pitch it appends exactly one new effect whose
size is `int(0.8 × key width)` (0.8 times the key width truncated toward
zero) and whose max size is 3 × that initial size. -/
theorem trigger_hit_effect_spec (pr : PianoRoll) (p : Int) :
    (pr.keyboard_layout_info p = none → pr.trigger_hit_effect p = pr) ∧
    (∀ k : KeyInfo, pr.keyboard_layout_info p = some k →
      (pr.trigger_hit_effect p).hit_effects
        = pr.hit_effects ++
          [⟨p, 255, pyInt (k.w_on_keyboard * (8 / 10)),
            pyInt (k.w_on_keyboard * (8 / 10)) * 3⟩]) := by
  constructor
  · intro hnone
    simp [PianoRoll.trigger_hit_effect, hnone]
  · intro k hk
    simp [PianoRoll.trigger_hit_effect, hk]

/-- Witness for C8 (amended): pitch 61 is absent from the layout of `prC8` and
triggers nothing; pitch 60 is present with width 21 and appends one
truncated-size effect. -/
theorem trigger_hit_effect_spec_witness :
    prC8.trigger_hit_effect 61 = prC8 ∧
    (prC8.trigger_hit_effect 60).hit_effects
      = prC8.hit_effects ++ [⟨60, 255, pyInt ((21 : ℚ) * (8 / 10)),
          pyInt ((21 : ℚ) * (8 / 10)) * 3⟩] :=
  ⟨(trigger_hit_effect_spec prC8 61).1 (by simp [prC8, PianoRoll.init, layoutC8]),
   (trigger_hit_effect_spec prC8 60).2 ⟨0, 21⟩ (by simp [prC8, PianoRoll.init, layoutC8])⟩

/-- C4: one step of the event walk. A note-on with nonzero velocity for
pitch p overwrites the pending start for p with the updated clock, leaves
the emitted notes unchanged (a previous unmatched start is silently
discarded) and leaves the pending starts of other pitches alone; a note-off for
pitch p with a pending start emits a note exactly when the duration
`current_tick - start_tick` is positive and clears the pending start in
either case; a zero-velocity note-on behaves exactly like a note-off. -/
theorem step_note_event_semantics (s : WalkState) (p st : Int) (v : Nat) (t : Int) :
    (0 < v →
      (stepMsg s (.noteOn p v t)).notes_list = s.notes_list ∧
      (stepMsg s (.noteOn p v t)).active_notes p = some (s.current_time_ticks + t) ∧
      (∀ q : Int, q ≠ p → (stepMsg s (.noteOn p v t)).active_notes q = s.active_notes q)) ∧
    (s.active_notes p = some st →
      (stepMsg s (.noteOff p v t)).notes_list
        = (if 0 < s.current_time_ticks + t - st
           then s.notes_list ++ [⟨p, st, s.current_time_ticks + t - st⟩]
           else s.notes_list) ∧
      (stepMsg s (.noteOff p v t)).active_notes p = none ∧
      stepMsg s (.noteOn p 0 t) = stepMsg s (.noteOff p v t)) := by
  constructor
  · intro hv
    refine ⟨?_, ?_, ?_⟩
    · simp [stepMsg, MidiMsg.deltaTime, hv]
    · simp [stepMsg, MidiMsg.deltaTime, hv]
    · intro q hq
      simp [stepMsg, MidiMsg.deltaTime, hv, hq]
  · intro hp
    refine ⟨?_, ?_, ?_⟩
    · simp [stepMsg, MidiMsg.deltaTime, processOff, hp]
    · simp [stepMsg, MidiMsg.deltaTime, processOff, hp]
    · simp [stepMsg, MidiMsg.deltaTime]

/-- Witness for C4: in a state with a pending start for pitch 60 at tick 0,
a note-on for pitch 61 leaves the pending start of pitch 60 and the emitted
notes unchanged, and a note-off for pitch 60 five ticks later emits the
note and clears the pending start. -/
theorem step_note_event_semantics_witness :
    (stepMsg stateW4 (.noteOn 61 64 5)).notes_list = stateW4.notes_list ∧
    (stepMsg stateW4 (.noteOn 61 64 5)).active_notes 60 = stateW4.active_notes 60 ∧
    (stepMsg stateW4 (.noteOff 60 64 5)).notes_list
      = (if 0 < stateW4.current_time_ticks + 5 - 0
         then stateW4.notes_list ++ [⟨60, 0, stateW4.current_time_ticks + 5 - 0⟩]
         else stateW4.notes_list) ∧
    (stepMsg stateW4 (.noteOff 60 64 5)).active_notes 60 = none :=
  ⟨((step_note_event_semantics stateW4 61 0 64 5).1 (by norm_num)).1,
   ((step_note_event_semantics stateW4 61 0 64 5).1 (by norm_num)).2.2 60 (by decide),
   ((step_note_event_semantics stateW4 60 0 64 5).2 (by decide)).1,
   ((step_note_event_semantics stateW4 60 0 64 5).2 (by decide)).2.1⟩

/-- The note-off branch never emits a note for a pitch other than the one
it closes: if no accumulated note has pitch p and the closed pitch differs
from p, the property is preserved. -/
theorem processOff_preserves_no_pitch (clock : Int) (active : Int → Option Int)
    (acc : List Note) (q p : Int) (hq : q ≠ p)
    (hacc : ∀ n ∈ acc, n.note ≠ p) :
    ∀ n ∈ (processOff clock active acc q).notes_list, n.note ≠ p := by
  intro n hn
  unfold processOff at hn
  cases hch : active q with
  | none =>
    rw [hch] at hn
    exact hacc n hn
  | some st =>
    rw [hch] at hn
    simp only at hn
    split at hn
    · rcases List.mem_append.mp hn with h | h
      · exact hacc n h
      · rcases List.mem_singleton.mp h with rfl
        exact hq
    · exact hacc n hn

/-- One walk step never emits a note for pitch p unless the message is a
note-off (or zero-velocity note-on) for p. -/
theorem stepMsg_preserves_no_pitch (p : Int) (s : WalkState) (m : MidiMsg)
    (hm : isOffFor p m = false) (hs : ∀ n ∈ s.notes_list, n.note ≠ p) :
    ∀ n ∈ (stepMsg s m).notes_list, n.note ≠ p := by
  cases m with
  | noteOn q v t =>
    by_cases hv : 0 < v
    · simpa [stepMsg, hv] using hs
    · have hv0 : v = 0 := by omega
      subst hv0
      simp [isOffFor] at hm
      simpa [stepMsg] using
        processOff_preserves_no_pitch (s.current_time_ticks + t) s.active_notes
          s.notes_list q p hm hs
  | noteOff q v t =>
    simp [isOffFor] at hm
    simpa [stepMsg] using
      processOff_preserves_no_pitch (s.current_time_ticks + t) s.active_notes
        s.notes_list q p hm hs
  | setTempo tempo t =>
    simpa [stepMsg] using hs
  | other t =>
    simpa [stepMsg] using hs

/-- Invariant lifted through the whole fold of the event walk. -/
theorem foldl_preserves_no_pitch (p : Int) :
    ∀ (tr : Track) (s : WalkState), (∀ m ∈ tr, isOffFor p m = false) →
      (∀ n ∈ s.notes_list, n.note ≠ p) →
      ∀ n ∈ (tr.foldl stepMsg s).notes_list, n.note ≠ p := by
  intro tr
  induction tr with
  | nil =>
    intro s _ hs
    simpa using hs
  | cons m rest ih =>
    intro s hm hs
    simp only [List.foldl_cons]
    exact ih (stepMsg s m) (fun m' h => hm m' (List.mem_cons_of_mem _ h))
      (stepMsg_preserves_no_pitch p s m (hm m (List.mem_cons_self _ _)) hs)

/-- C9: a note-on for pitch p that is never followed by a note-off or
zero-velocity note-on for p contributes no note to the output: every note
emitted by the walk has a pitch other than p, so the pending start left for
p when the walk ends is silently dropped. -/
theorem dangling_note_on_never_emitted (tr : Track) (p : Int)
    (h : ∀ m ∈ tr, isOffFor p m = false) :
    ((walkTrack tr).notes_list.all fun n => decide (n.note ≠ p)) = true := by
  rw [List.all_eq_true]
  intro n hn
  exact decide_eq_true
    (foldl_preserves_no_pitch p tr initialWalkState h (by simp [initialWalkState]) n hn)

/-- Witness for C9: in `trackW9` the note-on for pitch 60 is never closed,
and indeed no emitted note carries pitch 60. -/
theorem dangling_note_on_never_emitted_witness :
    ((walkTrack trackW9).notes_list.all fun n => decide (n.note ≠ 60)) = true :=
  dangling_note_on_never_emitted trackW9 60 (by decide)

/-- The empty effect list is a fixed point of the per-frame effect step. -/
theorem effectsStep_nil : effectsStep [] = [] := rfl

/-- The per-frame effect step on a single effect: age it, then keep it only
if it passes the retention test. -/
theorem effectsStep_singleton (e : HitEffect) :
    effectsStep [e] = if keepEffect (updateEffect e) then [updateEffect e] else [] := by
  simp [effectsStep, List.filter_singleton]

/-- An effect whose alpha is at most `10 * m` is gone after `m + 1` frame
steps: alpha drops by 10 per step and the effect is dropped once it is
nonpositive (or the size cap is hit first, in which case the list is
already empty and stays empty). -/
theorem effect_removed_rec (m : Nat) :
    ∀ e : HitEffect, e.alpha ≤ 10 * m → effectsStep^[m + 1] [e] = [] := by
  induction m with
  | zero =>
    intro e he
    rw [Function.iterate_one, effectsStep_singleton]
    have h1 : keepEffect (updateEffect e) = false := by
      simp only [keepEffect, updateEffect, Bool.and_eq_false_iff, decide_eq_false_iff_not]
      omega
    rw [h1]
    simp
  | succ k ih =>
    intro e he
    rw [Function.iterate_succ_apply, effectsStep_singleton]
    by_cases hk : keepEffect (updateEffect e) = true
    · rw [if_pos hk]
      refine ih (updateEffect e) ?_
      simp only [updateEffect]
      omega
    · rw [if_neg hk]
      exact Function.iterate_fixed effectsStep_nil (k + 1)

/-- C7: every hit effect the scheduler ever creates is removed in finitely
many update calls. Each update decreases alpha by exactly 10 and increases
size by exactly 3 (leaving pitch and max size alone); the retention test
drops an effect exactly when alpha ≤ 0 or size ≥ max_size; every effect
appended by `trigger_hit_effect` is created with alpha 255; and any effect
with alpha ≤ 255 is gone after 27 update steps. -/
theorem hit_effects_terminate :
    (∀ e : HitEffect, (updateEffect e).alpha = e.alpha - 10 ∧
      (updateEffect e).size = e.size + 3 ∧
      (updateEffect e).max_size = e.max_size ∧
      (updateEffect e).note_midi = e.note_midi) ∧
    (∀ e : HitEffect, keepEffect e = false ↔ (e.alpha ≤ 0 ∨ e.max_size ≤ e.size)) ∧
    (∀ (pr : PianoRoll) (p : Int), ∀ e ∈ (pr.trigger_hit_effect p).hit_effects,
      e ∈ pr.hit_effects ∨ e.alpha = 255) ∧
    (∀ e : HitEffect, e.alpha ≤ 255 → effectsStep^[27] [e] = []) := by
  refine ⟨fun e => ⟨rfl, rfl, rfl, rfl⟩, ?_, ?_, ?_⟩
  · intro e
    simp only [keepEffect, Bool.and_eq_false_iff, decide_eq_false_iff_not]
    omega
  · intro pr p e he
    unfold PianoRoll.trigger_hit_effect at he
    cases hk : pr.keyboard_layout_info p with
    | none =>
      rw [hk] at he
      exact Or.inl he
    | some key_info =>
      rw [hk] at he
      simp only at he
      rcases List.mem_append.mp he with h | h
      · exact Or.inl h
      · rcases List.mem_singleton.mp h with rfl
        exact Or.inr rfl
  · intro e he
    exact effect_removed_rec 26 e (by omega)

/-- Witness for C7: the effect created by `prC1.trigger_hit_effect 60` is
⟨60, 255, 4, 12⟩ (key width 5, so size int(4.0) = 4, max 12); it was not
pre-existing, so its alpha is 255, one update drops its alpha to 245, the
retention test keeps it, and 27 update steps remove it. -/
theorem hit_effects_terminate_witness :
    ((⟨60, 255, 4, 12⟩ : HitEffect) ∈ prC1.hit_effects ∨
      (⟨60, 255, 4, 12⟩ : HitEffect).alpha = 255) ∧
    (updateEffect ⟨60, 255, 4, 12⟩).alpha = (⟨60, 255, 4, 12⟩ : HitEffect).alpha - 10 ∧
    (keepEffect ⟨60, 255, 4, 12⟩ = false ↔
      ((⟨60, 255, 4, 12⟩ : HitEffect).alpha ≤ 0 ∨
        (⟨60, 255, 4, 12⟩ : HitEffect).max_size ≤ (⟨60, 255, 4, 12⟩ : HitEffect).size)) ∧
    effectsStep^[27] [(⟨60, 255, 4, 12⟩ : HitEffect)] = [] :=
  ⟨hit_effects_terminate.2.2.1 prC1 60 ⟨60, 255, 4, 12⟩
    (by norm_num [prC1, PianoRoll.init, PianoRoll.trigger_hit_effect, demoLayout, pyInt]),
   (hit_effects_terminate.1 ⟨60, 255, 4, 12⟩).1,
   hit_effects_terminate.2.1 ⟨60, 255, 4, 12⟩,
   hit_effects_terminate.2.2.2 ⟨60, 255, 4, 12⟩ (by norm_num)⟩

/-- Invariant of the track-selection loop: either nothing in the remaining
list beats the running maximum and the running best index is returned,
or the loop returns `i + j` for the earliest position `j` of the remaining
list that strictly beats the running maximum and is maximal overall. -/
theorem bestAux_spec (l : List Track) :
    ∀ (i : Nat) (best mx : Int),
      ((∀ tr ∈ l, (note_on_count tr : Int) ≤ mx) ∧ bestAux l i best mx = best) ∨
      (∃ j : Nat, j < l.length ∧ bestAux l i best mx = (i : Int) + (j : Int) ∧
        mx < (note_on_count (l.getD j []) : Int) ∧
        (∀ m < l.length, note_on_count (l.getD m []) ≤ note_on_count (l.getD j [])) ∧
        (∀ m < j, note_on_count (l.getD m []) < note_on_count (l.getD j []))) := by
  induction l with
  | nil =>
    intro i best mx
    left
    exact ⟨by simp, rfl⟩
  | cons tr rest ih =>
    intro i best mx
    by_cases hc : (note_on_count tr : Int) > mx
    · right
      rcases ih (i + 1) (i : Int) (note_on_count tr) with ⟨hall, heq⟩ |
        ⟨j, hjlen, heq, hmx, hmax, hstrict⟩
      · refine ⟨0, by simp, ?_, by simpa using hc, ?_, ?_⟩
        · rw [bestAux, if_pos hc, heq]
          simp
        · intro m hm
          cases m with
          | zero => simp
          | succ m' =>
            simp only [List.length_cons, Nat.succ_lt_succ_iff] at hm
            have hmem : rest.getD m' [] ∈ rest := by
              rw [List.getD_eq_getElem rest [] hm]
              exact List.getElem_mem hm
            have h2 := hall _ hmem
            simp only [List.getD_cons_succ, List.getD_cons_zero]
            exact_mod_cast h2
        · intro m hm
          omega
      · refine ⟨j + 1, by simpa using hjlen, ?_, ?_, ?_, ?_⟩
        · rw [bestAux, if_pos hc, heq]
          push_cast
          ring
        · simp only [List.getD_cons_succ]
          exact lt_trans hc hmx
        · intro m hm
          cases m with
          | zero =>
            simp only [List.getD_cons_succ, List.getD_cons_zero]
            have : (note_on_count tr : Int) < (note_on_count (rest.getD j []) : Int) := hmx
            exact_mod_cast le_of_lt this
          | succ m' =>
            simp only [List.length_cons, Nat.succ_lt_succ_iff] at hm
            simp only [List.getD_cons_succ]
            exact hmax m' hm
        · intro m hm
          cases m with
          | zero =>
            simp only [List.getD_cons_succ, List.getD_cons_zero]
            have : (note_on_count tr : Int) < (note_on_count (rest.getD j []) : Int) := hmx
            exact_mod_cast this
          | succ m' =>
            simp only [Nat.succ_lt_succ_iff] at hm
            simp only [List.getD_cons_succ]
            exact hstrict m' hm
    · rcases ih (i + 1) best mx with ⟨hall, heq⟩ |
        ⟨j, hjlen, heq, hmx, hmax, hstrict⟩
      · left
        refine ⟨?_, ?_⟩
        · intro tr' htr'
          rcases List.mem_cons.mp htr' with rfl | h
          · omega
          · exact hall tr' h
        · rw [bestAux, if_neg hc, heq]
      · right
        refine ⟨j + 1, by simpa using hjlen, ?_, ?_, ?_, ?_⟩
        · rw [bestAux, if_neg hc, heq]
          push_cast
          ring
        · simp only [List.getD_cons_succ]
          exact hmx
        · intro m hm
          cases m with
          | zero =>
            simp only [List.getD_cons_succ, List.getD_cons_zero]
            have h3 : (note_on_count tr : Int) < (note_on_count (rest.getD j []) : Int) := by
              omega
            exact_mod_cast le_of_lt h3
          | succ m' =>
            simp only [List.length_cons, Nat.succ_lt_succ_iff] at hm
            simp only [List.getD_cons_succ]
            exact hmax m' hm
        · intro m hm
          cases m with
          | zero =>
            simp only [List.getD_cons_succ, List.getD_cons_zero]
            have h3 : (note_on_count tr : Int) < (note_on_count (rest.getD j []) : Int) := by
              omega
            exact_mod_cast h3
          | succ m' =>
            simp only [Nat.succ_lt_succ_iff] at hm
            simp only [List.getD_cons_succ]
            exact hstrict m' hm

/-- C5: for a nonempty track list, `best_track_index` is a valid index whose
count of nonzero-velocity note-on events of the selected track is maximal, and every
earlier track has a strictly smaller count — so ties go to the earliest
index. -/
theorem best_track_index_selects_max (tracks : List Track) (h : tracks ≠ []) :
    0 ≤ best_track_index tracks ∧
    (best_track_index tracks).toNat < tracks.length ∧
    (∀ m < tracks.length,
      note_on_count (tracks.getD m [])
        ≤ note_on_count (tracks.getD (best_track_index tracks).toNat [])) ∧
    (∀ m < (best_track_index tracks).toNat,
      note_on_count (tracks.getD m [])
        < note_on_count (tracks.getD (best_track_index tracks).toNat [])) := by
  rcases bestAux_spec tracks 0 (-1) (-1) with ⟨hall, _⟩ |
    ⟨j, hjlen, heq, _, hmax, hstrict⟩
  · cases tracks with
    | nil => exact absurd rfl h
    | cons tr rest =>
      have h2 := hall tr (List.mem_cons_self _ _)
      omega
  · have heq' : best_track_index tracks = (j : Int) := by
      rw [best_track_index, heq]
      simp
    have htn : (best_track_index tracks).toNat = j := by
      rw [heq']
      simp
    refine ⟨by rw [heq']; exact Int.natCast_nonneg j, by rw [htn]; exact hjlen, ?_, ?_⟩
    · intro m hm
      rw [htn]
      exact hmax m hm
    · intro m hm
      rw [htn] at hm ⊢
      exact hstrict m hm

/-- Witness for C5: with two tracks of one qualifying note-on each, the
selected index is valid and its count is at least that of track 1 — the
tie resolves to the earliest track. -/
theorem best_track_index_selects_max_witness :
    0 ≤ best_track_index tracksW ∧
    note_on_count (tracksW.getD 1 [])
      ≤ note_on_count (tracksW.getD (best_track_index tracksW).toNat []) :=
  ⟨(best_track_index_selects_max tracksW (by decide)).1,
   (best_track_index_selects_max tracksW (by decide)).2.2.1 1 (by decide)⟩

end PianoKeys
